import Mathlib

/-!
Shallow embedding of `src/libstd/collections/hash/set.rs`: the `HashSet`
container built over a hash map whose values are the unit marker `()`.

The underlying `HashMap` collaborator is not part of the excerpt; its
primitives (`contains_key`, `insert`, `remove`, `len`, key iteration,
draining) are modelled from the spec's description of the consumed map
interface.  A set state is the sequence of keys of the underlying map in
iteration order; the map's key-uniqueness invariant is carried as a
`Nodup` proof.  Iteration order is unspecified by the spec, so theorems
quantify over every possible key sequence.
-/

set_option autoImplicit false
set_option maxRecDepth 100000
set_option linter.unusedSectionVars false

namespace RustSet

variable {α : Type} [DecidableEq α]

/-- `HashSet<T>`: the sequence of keys stored in the underlying map, in the
map's (unspecified) iteration order, together with the map's key-uniqueness
invariant. -/
structure HashSet (α : Type) where
  elems : List α
  nodup : elems.Nodup

/-- `HashSet::new` (and `Default::default`): an empty set. Capacity is not
modelled; it never affects contents. -/
def HashSet.new (α : Type) : HashSet α := ⟨[], List.nodup_nil⟩

/-- Modelled from the spec: the underlying map's `contains_key(key) -> bool`,
membership of the key among the stored keys.  `HashSet::contains` delegates
to it directly. -/
def HashSet.contains (s : HashSet α) (v : α) : Bool :=
  decide (v ∈ s.elems)

/-- `HashSet::len`: delegates to the map's `len`, the number of stored keys. -/
def HashSet.len (s : HashSet α) : Nat := s.elems.length

/-- `HashSet::is_empty`: `self.map.len() == 0`. -/
def HashSet.is_empty (s : HashSet α) : Bool := s.len == 0

/-- `HashSet::insert`: `self.map.insert(value, ()).is_none()`.  Modelled from
the spec: the map's `insert(key, marker)` returns the previous marker or
absent; a fresh key joins the key sequence, an existing key leaves the key
sequence unchanged (only the unit marker slot is written).  Returns the
updated set and the boolean `insert` result. -/
def HashSet.insert (s : HashSet α) (v : α) : HashSet α × Bool :=
  if h : v ∈ s.elems then (s, false)
  else (⟨s.elems ++ [v], by
    refine List.nodup_append.mpr ⟨s.nodup, List.nodup_singleton v, ?_⟩
    simpa using h⟩, true)

/-- `HashSet::remove`: `self.map.remove(value).is_some()`.  Modelled from the
spec: the map's `remove(key)` deletes the key from the key sequence and
reports whether it was present.  Returns the updated set and the boolean
`remove` result. -/
def HashSet.remove (s : HashSet α) (v : α) : HashSet α × Bool :=
  (⟨s.elems.erase v, s.nodup.erase v⟩, decide (v ∈ s.elems))

/-- `HashSet::clear`: `self.map.clear()`. -/
def HashSet.clear (_s : HashSet α) : HashSet α := HashSet.new α

/-- `Extend::extend`: inserts each element of the sequence in turn. -/
def HashSet.extend (s : HashSet α) (l : List α) : HashSet α :=
  l.foldl (fun t k => (t.insert k).1) s

/-- `FromIterator::from_iter` (collect): build an empty set and `extend` it
with the sequence. -/
def HashSet.from_iter (l : List α) : HashSet α :=
  (HashSet.new α).extend l

/-- `Iter`: the borrowing iterator over a set, `Iter { iter: self.map.keys() }`.
`remaining` is the portion of the key sequence not yet yielded. -/
structure Iter (α : Type) where
  remaining : List α

/-- `HashSet::iter`: a fresh cursor over the whole key sequence. -/
def HashSet.iter (s : HashSet α) : Iter α := ⟨s.elems⟩

/-- `Iter::next`: delegates to the map key iterator; yields the next key,
`None` at the end. -/
def Iter.next : Iter α → Option (α × Iter α)
  | ⟨[]⟩ => none
  | ⟨x :: xs⟩ => some (x, ⟨xs⟩)

/-- Modelled from the spec: the map key iterator's `size_hint`, which `Iter`
forwards — the exact number of remaining keys as both lower and upper bound. -/
def Iter.size_hint (it : Iter α) : Nat × Option Nat :=
  (it.remaining.length, some it.remaining.length)

/-- All elements an `Iter` yields over its life, in order. -/
def Iter.toList (it : Iter α) : List α := it.remaining

/-- `Difference`: a cursor into the first set's iterator plus a reference to
the second set. -/
structure Difference (α : Type) where
  iter : Iter α
  other : HashSet α

/-- `Intersection`: a cursor into the first set's iterator plus a reference to
the second set. -/
structure Intersection (α : Type) where
  iter : Iter α
  other : HashSet α

/-- `HashSet::difference`: `Difference { iter: self.iter(), other: other }`. -/
def HashSet.difference (s other : HashSet α) : Difference α :=
  ⟨s.iter, other⟩

/-- `HashSet::intersection`: `Intersection { iter: self.iter(), other: other }`. -/
def HashSet.intersection (s other : HashSet α) : Intersection α :=
  ⟨s.iter, other⟩

/-- The loop body of `Difference::next` over the remaining cursor: skip every
element the peer set contains, yield the first one it does not. -/
def diffNextLoop (o : HashSet α) : List α → Option (α × Difference α)
  | [] => none
  | x :: xs => if o.contains x then diffNextLoop o xs else some (x, ⟨⟨xs⟩, o⟩)

/-- `Difference::next`: pulls from the first set's cursor, looping past
elements the peer `contains`, returning the first element it does not. -/
def Difference.next (d : Difference α) : Option (α × Difference α) :=
  diffNextLoop d.other d.iter.remaining

/-- `Difference::size_hint`: `(0, upper)` where `upper` is the upper bound of
the first set's iterator. -/
def Difference.size_hint (d : Difference α) : Nat × Option Nat :=
  (0, d.iter.size_hint.2)

/-- The loop body of `Intersection::next` over the remaining cursor: skip
every element the peer set does not contain, yield the first one it does. -/
def interNextLoop (o : HashSet α) : List α → Option (α × Intersection α)
  | [] => none
  | x :: xs => if o.contains x then some (x, ⟨⟨xs⟩, o⟩) else interNextLoop o xs

/-- `Intersection::next`: pulls from the first set's cursor, looping past
elements the peer does not `contains`, returning the first element it does. -/
def Intersection.next (i : Intersection α) : Option (α × Intersection α) :=
  interNextLoop i.other i.iter.remaining

/-- `Intersection::size_hint`: `(0, upper)` where `upper` is the upper bound
of the first set's iterator. -/
def Intersection.size_hint (i : Intersection α) : Nat × Option Nat :=
  (0, i.iter.size_hint.2)

/-- The complete yield sequence of the `Difference::next` loop over a
remaining cursor: each element of the cursor not contained in the peer set,
in cursor order. -/
def diffYields (o : HashSet α) : List α → List α
  | [] => []
  | x :: xs => if o.contains x then diffYields o xs else x :: diffYields o xs

/-- All elements a `Difference` iterator yields over its life, in order. -/
def Difference.toList (d : Difference α) : List α :=
  diffYields d.other d.iter.remaining

/-- The complete yield sequence of the `Intersection::next` loop over a
remaining cursor: each element of the cursor contained in the peer set, in
cursor order. -/
def interYields (o : HashSet α) : List α → List α
  | [] => []
  | x :: xs => if o.contains x then x :: interYields o xs else interYields o xs

/-- All elements an `Intersection` iterator yields over its life, in order. -/
def Intersection.toList (i : Intersection α) : List α :=
  interYields i.other i.iter.remaining

/-- `SymmetricDifference`: `self.difference(other).chain(other.difference(self))`. -/
structure SymmetricDifference (α : Type) where
  first : Difference α
  second : Difference α

/-- `HashSet::symmetric_difference`: chains (self − other) before
(other − self). -/
def HashSet.symmetric_difference (s other : HashSet α) : SymmetricDifference α :=
  ⟨s.difference other, other.difference s⟩

/-- `SymmetricDifference::next` via the `Chain` adapter: pull from the first
difference until it is exhausted, then from the second. -/
def SymmetricDifference.next (it : SymmetricDifference α) :
    Option (α × SymmetricDifference α) :=
  match it.first.next with
  | some (x, f) => some (x, ⟨f, it.second⟩)
  | none =>
    match it.second.next with
    | some (x, s) => some (x, ⟨it.first, s⟩)
    | none => none

/-- All elements a `SymmetricDifference` iterator yields over its life: the
first difference's yields followed by the second's. -/
def SymmetricDifference.toList (it : SymmetricDifference α) : List α :=
  it.first.toList ++ it.second.toList

/-- `Union`: `self.iter().chain(other.difference(self))`. -/
structure Union (α : Type) where
  first : Iter α
  second : Difference α

/-- `HashSet::union`: chains all of self before (other − self). -/
def HashSet.union (s other : HashSet α) : Union α :=
  ⟨s.iter, other.difference s⟩

/-- `Union::next` via the `Chain` adapter: pull from the plain iterator until
it is exhausted, then from the difference. -/
def Union.next (u : Union α) : Option (α × Union α) :=
  match u.first.next with
  | some (x, f) => some (x, ⟨f, u.second⟩)
  | none =>
    match u.second.next with
    | some (x, s) => some (x, ⟨u.first, s⟩)
    | none => none

/-- All elements a `Union` iterator yields over its life: all of the first
set, then the second difference's yields. -/
def Union.toList (u : Union α) : List α :=
  u.first.toList ++ u.second.toList

/-- `HashSet::is_disjoint`: `self.iter().all(|v| !other.contains(v))`. -/
def HashSet.is_disjoint (s other : HashSet α) : Bool :=
  s.elems.all fun v => !other.contains v

/-- `HashSet::is_subset`: `self.iter().all(|v| other.contains(v))`. -/
def HashSet.is_subset (s other : HashSet α) : Bool :=
  s.elems.all fun v => other.contains v

/-- `HashSet::is_superset`: `other.is_subset(self)`. -/
def HashSet.is_superset (s other : HashSet α) : Bool :=
  other.is_subset s

/-- `PartialEq::eq` for `HashSet`: false when the lengths differ, otherwise
`self.iter().all(|key| other.contains(key))`. -/
def HashSet.eq (s other : HashSet α) : Bool :=
  if s.len ≠ other.len then false
  else s.elems.all fun k => other.contains k

/-- `Drain`: the draining iterator; `set` is the drained set's current state,
shrinking as elements are yielded.  Modelled from the spec: the map's
draining iteration removes each key as it is yielded. -/
structure Drain (α : Type) where
  set : HashSet α

/-- `HashSet::drain`: a draining iterator over the whole set. -/
def HashSet.drain (s : HashSet α) : Drain α := ⟨s⟩

/-- `Drain::next`: yields the next element, removing it from the set
atomically per element (modelled from the spec's map draining iteration). -/
def Drain.next : Drain α → Option (α × Drain α)
  | ⟨⟨[], _⟩⟩ => none
  | ⟨⟨x :: xs, h⟩⟩ => some (x, ⟨⟨xs, h.of_cons⟩⟩)

/-- Modelled from the spec: dropping a drain iterator removes every
still-unyielded element in turn, leaving the drained set empty. -/
def Drain.drop : Drain α → HashSet α
  | ⟨⟨[], h⟩⟩ => ⟨[], h⟩
  | ⟨⟨_ :: xs, h⟩⟩ => Drain.drop ⟨⟨xs, h.of_cons⟩⟩

/-- The observable lifecycle of a drain consumed for at most `k` pulls and
then dropped (a full consumption when `k` is at least the set's size):
returns the yielded elements and the drained set's final state. -/
def drainTake : Nat → Drain α → List α × HashSet α
  | 0, d => ([], d.drop)
  | k + 1, d =>
    match d.next with
    | none => ([], d.drop)
    | some (x, d') =>
      let r := drainTake k d'
      (x :: r.1, r.2)

/-! ### Basic lemmas about the embedding -/

@[simp]
theorem HashSet.contains_eq_true_iff (s : HashSet α) (v : α) :
    s.contains v = true ↔ v ∈ s.elems := by
  simp [HashSet.contains]

@[simp]
theorem HashSet.contains_eq_false_iff (s : HashSet α) (v : α) :
    s.contains v = false ↔ v ∉ s.elems := by
  simp [HashSet.contains]

theorem diffYields_eq_filter (o : HashSet α) (l : List α) :
    diffYields o l = l.filter fun x => !o.contains x := by
  induction l with
  | nil => rfl
  | cons x xs ih =>
    by_cases h : o.contains x <;> simp [diffYields, List.filter, h, ih]

theorem interYields_eq_filter (o : HashSet α) (l : List α) :
    interYields o l = l.filter fun x => o.contains x := by
  induction l with
  | nil => rfl
  | cons x xs ih =>
    by_cases h : o.contains x <;> simp [interYields, List.filter, h, ih]

/-- The yield sequence of a `Difference` is exactly what repeatedly calling
`Difference::next` produces: the first yield, then the rest of the sequence
from the successor state. -/
theorem diff_toList_eq_next (d : Difference α) :
    d.toList =
      match d.next with
      | none => []
      | some (x, d') => x :: d'.toList := by
  obtain ⟨⟨l⟩, o⟩ := d
  induction l with
  | nil => rfl
  | cons x xs ih =>
    by_cases h : o.contains x
    · simpa [Difference.toList, Difference.next, diffNextLoop, diffYields, h] using ih
    · simp [Difference.toList, Difference.next, diffNextLoop, diffYields, h]

/-- The yield sequence of an `Intersection` is exactly what repeatedly calling
`Intersection::next` produces. -/
theorem inter_toList_eq_next (i : Intersection α) :
    i.toList =
      match i.next with
      | none => []
      | some (x, i') => x :: i'.toList := by
  obtain ⟨⟨l⟩, o⟩ := i
  induction l with
  | nil => rfl
  | cons x xs ih =>
    by_cases h : o.contains x
    · simp [Intersection.toList, Intersection.next, interNextLoop, interYields, h]
    · simpa [Intersection.toList, Intersection.next, interNextLoop, interYields, h] using ih

theorem HashSet.is_subset_eq_true_iff (s other : HashSet α) :
    s.is_subset other = true ↔ ∀ x ∈ s.elems, x ∈ other.elems := by
  simp [HashSet.is_subset]

theorem HashSet.is_disjoint_eq_true_iff (s other : HashSet α) :
    s.is_disjoint other = true ↔ ∀ x ∈ s.elems, x ∉ other.elems := by
  simp [HashSet.is_disjoint]

/-! ### Claim theorems -/

/-- C1: for every two sets `A` and `B`, `A.is_superset(B)` returns the same
boolean as `B.is_subset(A)`; `is_superset` is the algebraic mirror of
`is_subset` for all inputs. -/
theorem is_superset_eq_is_subset_swap {α : Type} [DecidableEq α]
    (A B : HashSet α) : A.is_superset B = B.is_subset A :=
  rfl

/-- C7: for every two sets `A` and `B`, `A.is_disjoint(B)` returns the same
boolean as `B.is_disjoint(A)`, and each returns true exactly when no element
of the receiver is contained in the argument. -/
theorem is_disjoint_comm_and_spec {α : Type} [DecidableEq α]
    (A B : HashSet α) :
    A.is_disjoint B = B.is_disjoint A ∧
      (A.is_disjoint B = true ↔ ∀ x ∈ A.elems, B.contains x = false) := by
  constructor
  · rw [Bool.eq_iff_iff, HashSet.is_disjoint_eq_true_iff,
      HashSet.is_disjoint_eq_true_iff]
    constructor
    · intro h x hxB hxA
      exact h x hxA hxB
    · intro h x hxA hxB
      exact h x hxB hxA
  · rw [HashSet.is_disjoint_eq_true_iff]
    simp

/-- C10: every `Difference` and `Intersection` iterator state reports the
size hint `(0, upper)` where `upper` is the upper bound of the first set's
remaining element iterator, and the total number of elements it yields never
exceeds that upper bound. -/
theorem difference_intersection_size_hint {α : Type} [DecidableEq α]
    (d : Difference α) (i : Intersection α) :
    (d.size_hint = (0, some d.iter.remaining.length) ∧
      d.size_hint.2 = d.iter.size_hint.2 ∧
      d.toList.length ≤ d.iter.remaining.length) ∧
    (i.size_hint = (0, some i.iter.remaining.length) ∧
      i.size_hint.2 = i.iter.size_hint.2 ∧
      i.toList.length ≤ i.iter.remaining.length) := by
  refine ⟨⟨rfl, rfl, ?_⟩, ⟨rfl, rfl, ?_⟩⟩
  · rw [Difference.toList, diffYields_eq_filter]
    exact List.length_filter_le _ _
  · rw [Intersection.toList, interYields_eq_filter]
    exact List.length_filter_le _ _

/-- A duplicate-free list contained in another of the same length has the
same members: the key-uniqueness invariant turns the one-directional scan of
`PartialEq::eq` into full set equality. -/
theorem mem_iff_of_subset_of_len_eq {A B : HashSet α} (hlen : A.len = B.len)
    (hsub : ∀ x ∈ A.elems, x ∈ B.elems) : ∀ x, x ∈ A.elems ↔ x ∈ B.elems := by
  have hfin : A.elems.toFinset ⊆ B.elems.toFinset := by
    intro x hx
    rw [List.mem_toFinset] at hx ⊢
    exact hsub x hx
  have hcardA : A.elems.toFinset.card = A.len :=
    List.toFinset_card_of_nodup A.nodup
  have hcardB : B.elems.toFinset.card = B.len :=
    List.toFinset_card_of_nodup B.nodup
  have heq : A.elems.toFinset = B.elems.toFinset :=
    Finset.eq_of_subset_of_card_le hfin (by omega)
  intro x
  rw [← List.mem_toFinset, ← List.mem_toFinset (l := B.elems), heq]

/-- C4: for every two sets `A` and `B`, the structural equality test returns
true exactly when the two sets have the same length and each element of one
is contained in the other — order-independent set equality. -/
theorem eq_iff_same_len_and_same_members {α : Type} [DecidableEq α]
    (A B : HashSet α) :
    A.eq B = true ↔ (A.len = B.len ∧ ∀ x, x ∈ A.elems ↔ x ∈ B.elems) := by
  by_cases hlen : A.len = B.len
  · have he : A.eq B = A.elems.all fun k => B.contains k := by
      simp [HashSet.eq, hlen]
    rw [he]
    constructor
    · intro h
      have hsub : ∀ x ∈ A.elems, x ∈ B.elems := by
        intro x hx
        have := List.all_eq_true.mp h x hx
        simpa using this
      exact ⟨hlen, mem_iff_of_subset_of_len_eq hlen hsub⟩
    · intro ⟨_, hmem⟩
      refine List.all_eq_true.mpr fun x hx => ?_
      simpa using (hmem x).mp hx
  · have he : A.eq B = false := by
      simp [HashSet.eq, hlen]
    rw [he]
    simp [hlen]

/-- C5: inserting an already-present element returns false and leaves the
length unchanged, and insert returns true exactly when the element was newly
added; removing an absent element returns false and leaves the length
unchanged, and remove returns true exactly when an equal element was found
and removed. -/
theorem insert_remove_idempotence {α : Type} [DecidableEq α]
    (s : HashSet α) (x : α) :
    ((s.insert x).2 = true ↔ s.contains x = false) ∧
    (s.contains x = true → (s.insert x).2 = false ∧ (s.insert x).1.len = s.len) ∧
    ((s.remove x).2 = true ↔ s.contains x = true) ∧
    (s.contains x = false → (s.remove x).2 = false ∧ (s.remove x).1.len = s.len) := by
  by_cases h : x ∈ s.elems
  · refine ⟨?_, ?_, ?_, ?_⟩
    · simp [HashSet.insert, h, HashSet.contains]
    · intro _
      simp [HashSet.insert, h]
    · simp [HashSet.remove, h, HashSet.contains]
    · intro hc
      rw [HashSet.contains_eq_false_iff] at hc
      exact absurd h hc
  · refine ⟨?_, ?_, ?_, ?_⟩
    · simp [HashSet.insert, h, HashSet.contains]
    · intro hc
      rw [HashSet.contains_eq_true_iff] at hc
      exact absurd hc h
    · simp [HashSet.remove, h, HashSet.contains]
    · intro _
      refine ⟨by simp [HashSet.remove, h], ?_⟩
      simp [HashSet.remove, HashSet.len, List.erase_of_not_mem h]

/-- C5 witness: a concrete present-element insert and absent-element remove,
both leaving the length unchanged and returning false. -/
theorem insert_remove_idempotence_witness :
    ((HashSet.from_iter ([1, 2] : List ℤ)).contains 2 = true ∧
      ((HashSet.from_iter ([1, 2] : List ℤ)).insert 2).2 = false ∧
      ((HashSet.from_iter ([1, 2] : List ℤ)).insert 2).1.len =
        (HashSet.from_iter ([1, 2] : List ℤ)).len) ∧
    ((HashSet.from_iter ([1, 2] : List ℤ)).contains 5 = false ∧
      ((HashSet.from_iter ([1, 2] : List ℤ)).remove 5).2 = false ∧
      ((HashSet.from_iter ([1, 2] : List ℤ)).remove 5).1.len =
        (HashSet.from_iter ([1, 2] : List ℤ)).len) := by
  have h2 := (insert_remove_idempotence (HashSet.from_iter ([1, 2] : List ℤ)) 2).2.1
    (by decide)
  have h5 := (insert_remove_idempotence (HashSet.from_iter ([1, 2] : List ℤ)) 5).2.2.2
    (by decide)
  exact ⟨⟨by decide, h2.1, h2.2⟩, ⟨by decide, h5.1, h5.2⟩⟩

/-- Dropping a drain iterator leaves its set with an empty key sequence. -/
theorem Drain.drop_elems (d : Drain α) : d.drop.elems = [] := by
  obtain ⟨⟨l, h⟩⟩ := d
  induction l with
  | nil => simp [Drain.drop]
  | cons x xs ih => simpa [Drain.drop] using ih h.of_cons

/-- After any number of pulls followed by the drop, the drained set's key
sequence is empty. -/
theorem drainTake_elems (k : Nat) (d : Drain α) :
    (drainTake k d).2.elems = [] := by
  induction k generalizing d with
  | zero => exact Drain.drop_elems d
  | succ k ih =>
    obtain ⟨⟨l, h⟩⟩ := d
    cases l with
    | nil => simp [drainTake, Drain.next, Drain.drop]
    | cons x xs =>
      simpa [drainTake, Drain.next] using ih ⟨⟨xs, h.of_cons⟩⟩

/-- C9: for every set `S`, after `S.drain()` is pulled any number of times
(including zero, and including running to exhaustion) and then dropped, `S`
is empty: its length is `0` and no element remains contained in it. -/
theorem drain_leaves_set_empty {α : Type} [DecidableEq α]
    (s : HashSet α) (k : Nat) :
    (drainTake k s.drain).2.len = 0 ∧
      ∀ x, (drainTake k s.drain).2.contains x = false := by
  have h := drainTake_elems k s.drain
  refine ⟨?_, fun x => ?_⟩
  · simp [HashSet.len, h]
  · simp [HashSet.contains, h]

/-- In a duplicate-free list, every member occurs exactly once and every
non-member zero times. -/
theorem count_eq_ite_of_nodup {l : List α} (h : l.Nodup) (x : α) :
    l.count x = if x ∈ l then 1 else 0 := by
  by_cases hx : x ∈ l
  · simp [hx, List.count_eq_one_of_mem h hx]
  · simp [hx, List.count_eq_zero_of_not_mem hx]

/-- Splitting a list by a boolean predicate preserves its length. -/
theorem length_filter_add_length_filter_not (p : α → Bool) (l : List α) :
    (l.filter p).length + (l.filter fun x => !p x).length = l.length := by
  induction l with
  | nil => rfl
  | cons x xs ih => by_cases h : p x <;> simp [List.filter, h] <;> omega

/-- The number of elements of `A` contained in `B` equals the number of
elements of `B` contained in `A`: both count the common elements. -/
theorem filter_contains_length_comm (A B : HashSet α) :
    (A.elems.filter fun x => B.contains x).length =
      (B.elems.filter fun x => A.contains x).length := by
  have h1 : (A.elems.filter fun x => B.contains x).toFinset =
      A.elems.toFinset ∩ B.elems.toFinset := by
    ext x
    simp [List.mem_filter]
  have h2 : (B.elems.filter fun x => A.contains x).toFinset =
      B.elems.toFinset ∩ A.elems.toFinset := by
    ext x
    simp [List.mem_filter]
  rw [← List.toFinset_card_of_nodup (A.nodup.filter _),
    ← List.toFinset_card_of_nodup (B.nodup.filter _), h1, h2, Finset.inter_comm]

/-- C2: for every two sets `A` and `B`, the sequence yielded by `A.union(B)`
is every element of `A` followed by every element of `B` not in `A`; it
contains each distinct element present in `A` or `B` exactly once and
nothing else, and its length is `len(A) + len(B)` minus the number of
elements common to both (the intersection's yield count). -/
theorem union_yields_spec {α : Type} [DecidableEq α] (A B : HashSet α) :
    (A.union B).toList = A.elems ++ diffYields A B.elems ∧
    (∀ x, (A.union B).toList.count x =
      if A.contains x = true ∨ B.contains x = true then 1 else 0) ∧
    (A.union B).toList.length =
      A.len + B.len - (A.intersection B).toList.length := by
  have hd : (A.union B).toList =
      A.elems ++ B.elems.filter fun x => !A.contains x := by
    show A.elems ++ diffYields A B.elems = _
    rw [diffYields_eq_filter]
  have hnodup : (A.union B).toList.Nodup := by
    rw [hd]
    refine List.nodup_append.mpr ⟨A.nodup, B.nodup.filter _, ?_⟩
    intro x hxA hxF
    rw [List.mem_filter] at hxF
    simp only [Bool.not_eq_true', HashSet.contains_eq_false_iff] at hxF
    exact hxF.2 hxA
  refine ⟨rfl, ?_, ?_⟩
  · intro x
    rw [count_eq_ite_of_nodup hnodup x, hd]
    by_cases hA : x ∈ A.elems <;> by_cases hB : x ∈ B.elems <;>
      simp [List.mem_append, List.mem_filter, hA, hB]
  · have hi : (A.intersection B).toList =
        A.elems.filter fun x => B.contains x := by
      show interYields B A.elems = _
      rw [interYields_eq_filter]
    have hsplit := length_filter_add_length_filter_not
      (fun x => A.contains x) B.elems
    have hcomm := filter_contains_length_comm A B
    rw [hd, hi, List.length_append]
    unfold HashSet.len
    omega

/-- C3: for every two sets `A` and `B`, `A.symmetric_difference(B)` yields
the elements of `A − B` followed by those of `B − A`, and its element
multiset equals that of `B.symmetric_difference(A)` (only the yield order
may differ). -/
theorem symmetric_difference_multiset_comm {α : Type} [DecidableEq α]
    (A B : HashSet α) :
    (A.symmetric_difference B).toList =
        (A.difference B).toList ++ (B.difference A).toList ∧
    ((A.symmetric_difference B).toList : Multiset α) =
      ((B.symmetric_difference A).toList : Multiset α) := by
  refine ⟨rfl, Multiset.coe_eq_coe.mpr ?_⟩
  show ((A.difference B).toList ++ (B.difference A).toList).Perm
      ((B.difference A).toList ++ (A.difference B).toList)
  exact List.perm_append_comm

/-- C6: for every two sets `A` and `B`, `A.difference(B)` yields exactly the
elements of `A` not present in `B` — each exactly once, in `A`'s iteration
order — and on the spec's scenario (`A` built from 1,3,5,9,11 and `B` from
3,9) it yields exactly 1, 5, 11. -/
theorem difference_yields_spec :
    (∀ (α : Type) [DecidableEq α] (A B : HashSet α),
      (A.difference B).toList = A.elems.filter (fun x => !B.contains x) ∧
      ∀ x, (A.difference B).toList.count x =
        if A.contains x = true ∧ B.contains x = false then 1 else 0) ∧
    ((HashSet.from_iter ([1, 3, 5, 9, 11] : List ℤ)).difference
        (HashSet.from_iter ([3, 9] : List ℤ))).toList = [1, 5, 11] := by
  refine ⟨?_, by decide⟩
  intro α _ A B
  have hd : (A.difference B).toList =
      A.elems.filter fun x => !B.contains x := by
    show diffYields B A.elems = _
    rw [diffYields_eq_filter]
  refine ⟨hd, ?_⟩
  intro x
  rw [hd, count_eq_ite_of_nodup (A.nodup.filter _) x]
  by_cases hA : x ∈ A.elems <;> by_cases hB : x ∈ B.elems <;>
    simp [List.mem_filter, hA, hB]

/-- C8: for every set `S`, one full traversal of `S.iter()` yields exactly
the contained elements — each exactly once, nothing else — so the yield
count equals `len(S)`; and after inserting the 32 integers 0..31, iteration
visits each of them exactly once. -/
theorem iter_visits_each_element_once :
    (∀ (α : Type) [DecidableEq α] (s : HashSet α),
      s.iter.toList = s.elems ∧
      s.iter.toList.length = s.len ∧
      ∀ x, s.iter.toList.count x = if s.contains x = true then 1 else 0) ∧
    (∀ k : ℕ, (HashSet.from_iter (List.range 32)).iter.toList.count k =
      if k < 32 then 1 else 0) := by
  constructor
  · intro α _ s
    refine ⟨rfl, rfl, ?_⟩
    intro x
    show s.elems.count x = _
    rw [count_eq_ite_of_nodup s.nodup x]
    simp
  · intro k
    have h : (HashSet.from_iter (List.range 32)).elems = List.range 32 := by decide
    show (HashSet.from_iter (List.range 32)).elems.count k = _
    rw [h, count_eq_ite_of_nodup (List.nodup_range 32) k]
    simp [List.mem_range]

/-- C4 witness: two concrete sets with the same elements in different orders
compare equal, so their lengths and memberships agree. -/
theorem eq_iff_same_len_and_same_members_witness :
    (HashSet.from_iter ([1, 2, 3] : List ℤ)).len =
      (HashSet.from_iter ([3, 2, 1] : List ℤ)).len ∧
    ((2 : ℤ) ∈ (HashSet.from_iter ([1, 2, 3] : List ℤ)).elems ↔
      (2 : ℤ) ∈ (HashSet.from_iter ([3, 2, 1] : List ℤ)).elems) := by
  have h := (eq_iff_same_len_and_same_members
    (HashSet.from_iter ([1, 2, 3] : List ℤ))
    (HashSet.from_iter ([3, 2, 1] : List ℤ))).mp (by decide)
  exact ⟨h.1, h.2 2⟩

/-- C7 witness: two concrete sets with no common element are disjoint both
ways. -/
theorem is_disjoint_comm_and_spec_witness :
    (HashSet.from_iter ([1, 2] : List ℤ)).is_disjoint
        (HashSet.from_iter ([3] : List ℤ)) =
      (HashSet.from_iter ([3] : List ℤ)).is_disjoint
        (HashSet.from_iter ([1, 2] : List ℤ)) ∧
    (HashSet.from_iter ([1, 2] : List ℤ)).is_disjoint
        (HashSet.from_iter ([3] : List ℤ)) = true := by
  have h := is_disjoint_comm_and_spec (HashSet.from_iter ([1, 2] : List ℤ))
    (HashSet.from_iter ([3] : List ℤ))
  exact ⟨h.1, h.2.mpr (by decide)⟩

end RustSet
